import Mathlib

/-!
Verification of the payment-reconciliation core of the accounts-receivable
service (`supabase/functions/match-payments/index.ts`).

Modelling conventions:
* JavaScript numbers are idealised as exact rationals (`ℚ`); `x.toFixed(2)`
  followed by `Number(...)` and `Math.round` both round half towards `+∞`,
  modelled by Mathlib's `round`.
* The JavaScript `Map` is modelled as an association list preserving
  insertion order, as ECMA-262 `Map` iteration does; `map.set` on an existing
  key updates in place, otherwise appends.
* `Array.prototype.sort` is stable (ECMA-262), modelled by the stable
  `List.insertionSort`.
-/

/-- A JavaScript number: a finite value (idealised as a rational), `NaN`,
or one of the two infinities. -/
inductive JSNum where
  | finite (q : ℚ)
  | nan
  | posInf
  | negInf
deriving DecidableEq

/-- `Number.isNaN` on a `JSNum`. -/
def JSNum.isNaN : JSNum → Bool
  | .nan => true
  | _ => false

/-- `Number.isFinite` on a `JSNum`. -/
def JSNum.isFinite : JSNum → Bool
  | .finite _ => true
  | _ => false

/-- The value shapes `parseNumeric` is specified over: a number, a string,
`null`, or `undefined`. -/
inductive JSValue where
  | num (n : JSNum)
  | str (s : String)
  | null
  | undef
deriving DecidableEq

/-- ECMA-262 StrWhiteSpaceChar, restricted to the common ASCII cases. -/
def isJsWhitespace (c : Char) : Bool :=
  c = ' ' ∨ c = '\t' ∨ c = '\n' ∨ c = '\r'

/-- Decimal digit test. -/
def isAsciiDigit (c : Char) : Bool :=
  '0' ≤ c ∧ c ≤ '9'

/-- Value of a list of decimal digits. -/
def digitsToNat (l : List Char) : ℕ :=
  l.foldl (fun a c => 10 * a + (c.toNat - 48)) 0

/-- Parse the exponent suffix of a decimal literal: either nothing (exponent
0) or `e`/`E`, an optional sign, and a nonempty digit run consuming the rest
of the input. -/
def parseExponent : List Char → Option ℤ
  | [] => some 0
  | 'e' :: r => parseExponentBody r
  | 'E' :: r => parseExponentBody r
  | _ => none
where
  parseExponentBody : List Char → Option ℤ
    | '+' :: r => parseExponentDigits r false
    | '-' :: r => parseExponentDigits r true
    | r => parseExponentDigits r false
  parseExponentDigits (r : List Char) (neg : Bool) : Option ℤ :=
    let ds := r.takeWhile isAsciiDigit
    if ds.isEmpty ∨ ¬ (r.dropWhile isAsciiDigit).isEmpty then none
    else some (if neg then -(digitsToNat ds : ℤ) else (digitsToNat ds : ℤ))

/-- Parse an unsigned decimal numeric literal (`digits`, `digits.digits`,
`.digits`, `digits.`, each with an optional exponent). `none` when the input
is not such a literal. -/
def parseUnsignedDecimal (l : List Char) : Option ℚ :=
  let ip := l.takeWhile isAsciiDigit
  let r1 := l.dropWhile isAsciiDigit
  match r1 with
  | '.' :: r2 =>
      let fp := r2.takeWhile isAsciiDigit
      let r3 := r2.dropWhile isAsciiDigit
      if ip.isEmpty ∧ fp.isEmpty then none
      else
        (parseExponent r3).map (fun e =>
          ((digitsToNat ip : ℚ) + (digitsToNat fp : ℚ) / 10 ^ fp.length) * 10 ^ e)
  | _ =>
      if ip.isEmpty then none
      else (parseExponent r1).map (fun e => (digitsToNat ip : ℚ) * 10 ^ e)

/-- Model of the JavaScript `Number()` coercion on strings (ECMA-262
StringNumericLiteral), covering whitespace trimming, the empty string,
signed `Infinity`, and signed decimal literals with optional exponents.
Hex, octal and binary literals are outside the modelled scope. -/
def jsNumberOfString (s : String) : JSNum :=
  let t := ((s.toList.dropWhile isJsWhitespace).reverse.dropWhile isJsWhitespace).reverse
  match t with
  | [] => .finite 0
  | l =>
      let signed : Bool × List Char :=
        match l with
        | '+' :: r => (false, r)
        | '-' :: r => (true, r)
        | r => (false, r)
      let neg := signed.1
      let body := signed.2
      if body = "Infinity".toList then (if neg then .negInf else .posInf)
      else
        match parseUnsignedDecimal body with
        | some q => .finite (if neg then -q else q)
        | none => .nan

/-- `parseNumeric` (index.ts:8-21): a number is returned unchanged; a string
is coerced with `Number()` and returned when not `NaN`; otherwise the code
falls through to `Number(value ?? 0)`, which coerces the same string again
(yielding `NaN` again) or coerces `0` when the value is `null`/`undefined`. -/
def parseNumeric : JSValue → JSNum
  | .num n => n
  | .str s =>
      let parsed := jsNumberOfString s
      if ¬ parsed.isNaN then parsed else jsNumberOfString s
  | .null => .finite 0
  | .undef => .finite 0

/-- The shape under which an open invoice reaches the matcher
(index.ts:23-28), amounts already normalised. -/
structure InvoiceSummary where
  invoice_id : String
  invoice_number : String
  amount : ℚ
  customer_id : Option String
deriving DecidableEq

/-- A partial-match suggestion (index.ts:30-36). -/
structure PartialMatchSuggestion where
  invoices : List InvoiceSummary
  total_amount : ℚ
  difference : ℚ
  confidence : ℚ
  reason : String
deriving DecidableEq

/-- `Number(x.toFixed(2))` and `Math.round(x * 100) / 100`: rounding to
cents, halves towards `+∞`. -/
def round2 (q : ℚ) : ℚ :=
  (round (q * 100) : ℚ) / 100

/-- The tolerance band (index.ts:42): `Math.max(targetAmount * 0.15, 500)`. -/
def tolerance (targetAmount : ℚ) : ℚ :=
  max (targetAmount * 0.15) 500

/-- `shouldInclude` (index.ts:64): `Math.abs(difference) <= tolerance`. -/
def shouldInclude (targetAmount difference : ℚ) : Bool :=
  |difference| ≤ tolerance targetAmount

/-- The deduplication key (index.ts:46-49): the sorted invoice ids joined
with `-`, then `|`, then the total rounded to integer cents. -/
def suggestionKey (s : PartialMatchSuggestion) : String :=
  String.intercalate "-"
      (List.insertionSort (fun a b : String => a ≤ b) (s.invoices.map (·.invoice_id)))
    ++ "|" ++ toString (round (s.total_amount * 100))

/-- The suggestion map, an insertion-ordered association list standing for
the JavaScript `Map` (index.ts:43). -/
abbrev SuggestionMap := List (String × PartialMatchSuggestion)

/-- `suggestions.get(key)`. -/
def mapGet (m : SuggestionMap) (k : String) : Option PartialMatchSuggestion :=
  (m.find? (fun p => p.1 = k)).map (·.2)

/-- `suggestions.set(key, v)`: update in place when the key exists, append
otherwise. -/
def mapSet (m : SuggestionMap) (k : String) (v : PartialMatchSuggestion) : SuggestionMap :=
  if m.any (fun p => p.1 = k) then m.map (fun p => if p.1 = k then (k, v) else p)
  else m ++ [(k, v)]

/-- `registerSuggestion` (index.ts:45-55): store the suggestion unless the
key is already held by one of strictly greater or equal confidence. -/
def registerSuggestion (m : SuggestionMap) (s : PartialMatchSuggestion) : SuggestionMap :=
  match mapGet m (suggestionKey s) with
  | none => mapSet m (suggestionKey s) s
  | some existing =>
      if existing.confidence < s.confidence then mapSet m (suggestionKey s) s else m

/-- `computeConfidence` (index.ts:57-62). -/
def computeConfidence (targetAmount difference : ℚ) (invoiceCount : ℕ) : ℚ :=
  let relativeDiff := min (|difference| / max targetAmount 1) 1
  let baseScore := 1 - relativeDiff
  let comboBonus : ℚ := if 1 < invoiceCount then 0.1 else 0
  round2 (min (baseScore + comboBonus) 1) * 100

/-- `combo.reduce((sum, invoice) => sum + invoice.amount, 0)`. -/
def comboTotal (combo : List InvoiceSummary) : ℚ :=
  combo.foldl (fun sum invoice => sum + invoice.amount) 0

/-- The single-invoice suggestion (index.ts:72-78). -/
def singleSuggestion (targetAmount : ℚ) (invoice : InvoiceSummary) : PartialMatchSuggestion :=
  { invoices := [invoice]
    total_amount := round2 invoice.amount
    difference := round2 (targetAmount - invoice.amount)
    confidence := computeConfidence targetAmount (targetAmount - invoice.amount) 1
    reason := "Similar single invoice amount" }

/-- A pair or triple suggestion (index.ts:91-97, 112-118). -/
def comboSuggestion (targetAmount : ℚ) (combo : List InvoiceSummary) : PartialMatchSuggestion :=
  { invoices := combo
    total_amount := round2 (comboTotal combo)
    difference := round2 (targetAmount - comboTotal combo)
    confidence := computeConfidence targetAmount (targetAmount - comboTotal combo) combo.length
    reason := "Potential multi-invoice combination" }

/-- All index-ascending pairs of a list, in the order of the nested loops at
index.ts:81-99. -/
def pairsOf {α : Type} : List α → List (α × α)
  | [] => []
  | x :: xs => (xs.map (fun y => (x, y))) ++ pairsOf xs

/-- All index-ascending triples of a list, in the order of the nested loops
at index.ts:101-121. -/
def triplesOf {α : Type} : List α → List (α × α × α)
  | [] => []
  | x :: xs => ((pairsOf xs).map (fun p => (x, p.1, p.2))) ++ triplesOf xs

/-- The suggestions passed to `registerSuggestion`, in program order: the
singles pass (index.ts:66-79), then the pairs pass, then the triples pass,
each filtered by `shouldInclude`. -/
def candidateSuggestions (invoices : List InvoiceSummary) (targetAmount : ℚ) :
    List PartialMatchSuggestion :=
  ((invoices.filter (fun inv => shouldInclude targetAmount (targetAmount - inv.amount))).map
      (singleSuggestion targetAmount))
  ++ (((pairsOf invoices).filter
        (fun p => shouldInclude targetAmount (targetAmount - comboTotal [p.1, p.2]))).map
      (fun p => comboSuggestion targetAmount [p.1, p.2]))
  ++ (((triplesOf invoices).filter
        (fun t => shouldInclude targetAmount (targetAmount - comboTotal [t.1, t.2.1, t.2.2]))).map
      (fun t => comboSuggestion targetAmount [t.1, t.2.1, t.2.2]))

/-- The sort comparator at index.ts:124-130, as the "comes before or equal"
relation of the stable sort: strictly smaller absolute difference, or equal
absolute difference and at least the confidence. -/
def suggestionBefore (a b : PartialMatchSuggestion) : Prop :=
  |a.difference| < |b.difference| ∨ (|a.difference| = |b.difference| ∧ b.confidence ≤ a.confidence)

instance : DecidableRel suggestionBefore := fun a b => by
  unfold suggestionBefore; infer_instance

instance : IsTotal PartialMatchSuggestion suggestionBefore where
  total a b := by
    unfold suggestionBefore
    rcases lt_trichotomy |a.difference| |b.difference| with h | h | h
    · exact Or.inl (Or.inl h)
    · rcases le_total b.confidence a.confidence with hc | hc
      · exact Or.inl (Or.inr ⟨h, hc⟩)
      · exact Or.inr (Or.inr ⟨h.symm, hc⟩)
    · exact Or.inr (Or.inl h)

instance : IsTrans PartialMatchSuggestion suggestionBefore where
  trans a b c hab hbc := by
    unfold suggestionBefore at *
    rcases hab with h1 | ⟨h1, hc1⟩
    · rcases hbc with h2 | ⟨h2, _⟩
      · exact Or.inl (h1.trans h2)
      · exact Or.inl (h2 ▸ h1)
    · rcases hbc with h2 | ⟨h2, hc2⟩
      · exact Or.inl (h1 ▸ h2)
      · exact Or.inr ⟨h1.trans h2, hc2.trans hc1⟩

/-- `buildPartialMatches` (index.ts:38-132): register every candidate in
program order, read the surviving values in insertion order, stable-sort by
the comparator, and keep the first five. -/
def buildPartialMatches (invoices : List InvoiceSummary) (targetAmount : ℚ) :
    List PartialMatchSuggestion :=
  (List.insertionSort suggestionBefore
      (((candidateSuggestions invoices targetAmount).foldl registerSuggestion []).map (·.2))).take 5

/-- An invoice row as stored, with its status. -/
structure InvoiceRecord where
  invoice_id : String
  invoice_number : String
  amount : ℚ
  status : String
  customer_id : Option String
deriving DecidableEq

/-- A payment row as stored. -/
structure PaymentRecord where
  payment_id : String
  amount_received : ℚ
  status : String
  matched_invoice_id : Option String
deriving DecidableEq

/-- The tenant-scoped store the handler reads and writes: the invoice table
and the payment under reconciliation. -/
structure TenantState where
  invoices : List InvoiceRecord
  payment : PaymentRecord
deriving DecidableEq

/-- Which of the two store updates fail on this run (a failed update applies
no change and makes the corresponding supabase call return an error). -/
structure UpdateFailures where
  invoiceUpdateFails : Bool
  paymentUpdateFails : Bool
deriving DecidableEq

/-- The handler's observable outcome: the 200-response payload fields, or
the 500 response produced by the `catch` block when an update error is
thrown (index.ts:322-324, 339-341, 374-382). -/
inductive MatchOutcome where
  | ok (status : String) (message : String) (matched_invoice_id : Option String)
      (exact_matches : List InvoiceSummary)
      (partial_matches : List PartialMatchSuggestion)
  | serverError
deriving DecidableEq

/-- Projection of a stored invoice row to the summary selected at
index.ts:292-297. -/
def toSummary (r : InvoiceRecord) : InvoiceSummary :=
  { invoice_id := r.invoice_id
    invoice_number := r.invoice_number
    amount := r.amount
    customer_id := r.customer_id }

/-- The open-invoice query (index.ts:281-297): rows with status `open`, in
table order. -/
def openInvoicesOf (s : TenantState) : List InvoiceSummary :=
  (s.invoices.filter (fun r => r.status = "open")).map toSummary

/-- The invoice update at index.ts:316-320: set status `paid` on the row
with the matched id. -/
def markInvoicePaid (s : TenantState) (id : String) : TenantState :=
  { s with
    invoices := s.invoices.map (fun r =>
      if r.invoice_id = id then { r with status := "paid" } else r) }

/-- The payment update at index.ts:330-337. -/
def setPayment (s : TenantState) (st : String) (mid : Option String) : TenantState :=
  { s with
    payment := { s.payment with status := st, matched_invoice_id := mid } }

/-- The POST reconciliation path (index.ts:278-372): find the first open
invoice within the 0.01 epsilon; on a hit, update the invoice then the
payment as two separate calls, an error in either throwing to the 500
handler; on a miss, update the payment to `needs_review` and compute the
partial-match suggestions. -/
def matchPayment (s : TenantState) (f : UpdateFailures) : MatchOutcome × TenantState :=
  match (openInvoicesOf s).find?
      (fun invoice => |invoice.amount - s.payment.amount_received| < 0.01) with
  | some exactMatch =>
      if f.invoiceUpdateFails then (.serverError, s)
      else if f.paymentUpdateFails then (.serverError, markInvoicePaid s exactMatch.invoice_id)
      else
        (.ok "matched"
          ("Payment successfully matched to invoice " ++ exactMatch.invoice_number ++ ".")
          (some exactMatch.invoice_id) [exactMatch] [],
         setPayment (markInvoicePaid s exactMatch.invoice_id) "matched"
           (some exactMatch.invoice_id))
  | none =>
      if f.paymentUpdateFails then (.serverError, s)
      else
        (.ok "needs_review" "No exact invoice match found. Manual review required."
          none []
          (buildPartialMatches
            ((openInvoicesOf s).filter
              (fun invoice => some invoice.invoice_id ≠ (none : Option String)))
            s.payment.amount_received),
         setPayment s "needs_review" none)


/-- C2 counterexample: on the non-numeric string "abc" `parseNumeric`
returns `NaN`, which is neither `0` nor finite. -/
theorem parseNumeric_abc_is_nan :
    parseNumeric (.str "abc") = .nan
      ∧ parseNumeric (.str "abc") ≠ .finite 0
      ∧ (parseNumeric (.str "abc")).isFinite = false := by
  decide

/-- C2 amended: `parseNumeric` is total (never raises); it returns number
inputs unchanged (so `NaN` and the infinities propagate), `0` for `null`
and `undefined`, and the `Number()` coercion of string inputs — in
particular `NaN`, not `0`, for a non-numeric string. -/
theorem parseNumeric_contract :
    (∀ n : JSNum, parseNumeric (.num n) = n)
      ∧ parseNumeric .null = .finite 0
      ∧ parseNumeric .undef = .finite 0
      ∧ (∀ s : String, parseNumeric (.str s) = jsNumberOfString s) := by
  refine ⟨fun n => rfl, rfl, rfl, fun s => ?_⟩
  show (let parsed := jsNumberOfString s;
    if ¬ parsed.isNaN then parsed else jsNumberOfString s) = jsNumberOfString s
  by_cases h : (jsNumberOfString s).isNaN <;> simp [h]

/-- C9: for target 5300 with open invoices A=2000, B=3200, C=10000 there is
no exact match, and the result is exactly the pair {A,B} suggestion with
total 5200, difference 100 (within the tolerance max(795,500)=795); no
single-invoice candidate is returned, so it is ranked above every returned
single-invoice candidate. -/
theorem example_pair_beats_singles :
    (openInvoicesOf ⟨[⟨"A", "INV-A", 2000, "open", none⟩,
        ⟨"B", "INV-B", 3200, "open", none⟩,
        ⟨"C", "INV-C", 10000, "open", none⟩], ⟨"p1", 5300, "unmatched", none⟩⟩).find?
        (fun invoice => |invoice.amount - 5300| < 0.01) = none
      ∧ buildPartialMatches
          [⟨"A", "INV-A", 2000, none⟩, ⟨"B", "INV-B", 3200, none⟩, ⟨"C", "INV-C", 10000, none⟩]
          5300
        = [{ invoices := [⟨"A", "INV-A", 2000, none⟩, ⟨"B", "INV-B", 3200, none⟩]
             total_amount := 5200
             difference := 100
             confidence := 100
             reason := "Potential multi-invoice combination" }] := by
  constructor
  · norm_num [openInvoicesOf, toSummary, List.find?, List.filter]
  · norm_num [buildPartialMatches, candidateSuggestions, pairsOf, triplesOf, List.filter,
      shouldInclude, tolerance, comboTotal, comboSuggestion, singleSuggestion,
      computeConfidence, round2, round_eq, abs, registerSuggestion, mapGet, mapSet,
      List.insertionSort, List.orderedInsert, suggestionKey, List.foldl]

theorem mapSet_values_subset (m : SuggestionMap) (k : String) (v : PartialMatchSuggestion) :
    ∀ x ∈ (mapSet m k v).map Prod.snd, x ∈ m.map Prod.snd ∨ x = v := by
  intro x hx
  unfold mapSet at hx
  split at hx
  · simp only [List.map_map, List.mem_map] at hx
    obtain ⟨p, hp, hpx⟩ := hx
    by_cases hk : p.1 = k
    · right
      simp [Function.comp, hk] at hpx
      exact hpx.symm
    · left
      simp [Function.comp, hk] at hpx
      exact hpx ▸ List.mem_map_of_mem Prod.snd hp
  · simp only [List.map_append, List.mem_append, List.map_cons, List.map_nil,
      List.mem_singleton] at hx
    exact hx

theorem registerSuggestion_values_subset (m : SuggestionMap) (s : PartialMatchSuggestion) :
    ∀ x ∈ (registerSuggestion m s).map Prod.snd, x ∈ m.map Prod.snd ∨ x = s := by
  intro x hx
  unfold registerSuggestion at hx
  split at hx
  · exact mapSet_values_subset m _ s x hx
  · split at hx
    · exact mapSet_values_subset m _ s x hx
    · exact Or.inl hx

theorem foldl_register_values (cs : List PartialMatchSuggestion) (m : SuggestionMap) :
    ∀ x ∈ ((cs.foldl registerSuggestion m).map Prod.snd),
      x ∈ m.map Prod.snd ∨ x ∈ cs := by
  induction cs generalizing m with
  | nil => intro x hx; exact Or.inl hx
  | cons c cs ih =>
      intro x hx
      rcases ih (registerSuggestion m c) x hx with h | h
      · rcases registerSuggestion_values_subset m c x h with h | h
        · exact Or.inl h
        · exact Or.inr (h ▸ List.mem_cons_self c cs)
      · exact Or.inr (List.mem_cons_of_mem c h)

theorem mem_buildPartialMatches_candidates
    {invs : List InvoiceSummary} {T : ℚ} {s : PartialMatchSuggestion}
    (h : s ∈ buildPartialMatches invs T) : s ∈ candidateSuggestions invs T := by
  unfold buildPartialMatches at h
  have h1 := (List.take_sublist 5 _).mem h
  have h2 := ((List.perm_insertionSort suggestionBefore _).mem_iff).mp h1
  rcases foldl_register_values (candidateSuggestions invs T) [] s h2 with h3 | h3
  · simp at h3
  · exact h3

theorem pairsOf_mem_sublist {α : Type} {l : List α} {p : α × α}
    (h : p ∈ pairsOf l) : [p.1, p.2].Sublist l := by
  induction l with
  | nil => simp [pairsOf] at h
  | cons x xs ih =>
      unfold pairsOf at h
      rcases List.mem_append.mp h with h | h
      · obtain ⟨y, hy, hxy⟩ := List.mem_map.mp h
        cases hxy
        exact (List.singleton_sublist.mpr hy).cons₂ x
      · exact (ih h).cons x

theorem triplesOf_mem_sublist {α : Type} {l : List α} {t : α × α × α}
    (h : t ∈ triplesOf l) : [t.1, t.2.1, t.2.2].Sublist l := by
  induction l with
  | nil => simp [triplesOf] at h
  | cons x xs ih =>
      unfold triplesOf at h
      rcases List.mem_append.mp h with h | h
      · obtain ⟨p, hp, hxp⟩ := List.mem_map.mp h
        cases hxp
        exact (pairsOf_mem_sublist hp).cons₂ x
      · exact (ih h).cons x

theorem candidate_shape {invs : List InvoiceSummary} {T : ℚ} {c : PartialMatchSuggestion}
    (h : c ∈ candidateSuggestions invs T) :
    c.invoices.Sublist invs ∧ 1 ≤ c.invoices.length ∧ c.invoices.length ≤ 3
      ∧ |T - comboTotal c.invoices| ≤ tolerance T
      ∧ c.difference = round2 (T - comboTotal c.invoices) := by
  unfold candidateSuggestions at h
  rcases List.mem_append.mp h with h | h
  · rcases List.mem_append.mp h with h | h
    · obtain ⟨inv, hinv, hc⟩ := List.mem_map.mp h
      obtain ⟨hmem, hinc⟩ := List.mem_filter.mp hinv
      subst hc
      have htot : comboTotal [inv] = inv.amount := by simp [comboTotal]
      refine ⟨?_, ?_, ?_, ?_, ?_⟩ <;>
        simp [singleSuggestion, htot, List.singleton_sublist.mpr hmem]
      exact (by simpa [shouldInclude] using hinc)
    · obtain ⟨p, hp, hc⟩ := List.mem_map.mp h
      obtain ⟨hmem, hinc⟩ := List.mem_filter.mp hp
      subst hc
      refine ⟨?_, ?_, ?_, ?_, ?_⟩ <;>
        simp [comboSuggestion, pairsOf_mem_sublist hmem]
      exact (by simpa [shouldInclude] using hinc)
  · obtain ⟨t, ht, hc⟩ := List.mem_map.mp h
    obtain ⟨hmem, hinc⟩ := List.mem_filter.mp ht
    subst hc
    refine ⟨?_, ?_, ?_, ?_, ?_⟩ <;>
      simp [comboSuggestion, triplesOf_mem_sublist hmem]
    exact (by simpa [shouldInclude] using hinc)

theorem abs_round2_le (q : ℚ) : |round2 q| ≤ |q| + 1 / 200 := by
  unfold round2
  have h := abs_sub_round (q * 100)
  rw [abs_div]
  rw [div_le_iff₀ (by norm_num : (0:ℚ) < |(100:ℚ)|)]
  have : |(100:ℚ)| = 100 := by norm_num
  rw [this]
  have h2 : |(round (q * 100) : ℚ)| ≤ |q * 100| + 1 / 2 := by
    calc |(round (q * 100) : ℚ)|
        = |q * 100 - (q * 100 - (round (q * 100) : ℚ))| := by ring_nf
      _ ≤ |q * 100| + |q * 100 - (round (q * 100) : ℚ)| := abs_sub _ _
      _ ≤ |q * 100| + 1 / 2 := by linarith [abs_sub_round (q * 100)]
  calc |(round (q * 100) : ℚ)| ≤ |q * 100| + 1 / 2 := h2
    _ = |q| * 100 + 1 / 2 := by rw [abs_mul]; norm_num
    _ = (|q| + 1 / 200) * 100 := by ring

/-- C3 counterexample: for target 4000.04 and one open invoice of 3400.034
the tolerance is `max(600.006, 500) = 600.006`; the raw difference 600.006
passes the inclusion test, but the suggestion's difference field is the
rounded 600.01, which exceeds the tolerance. -/
theorem difference_field_can_exceed_tolerance :
    buildPartialMatches [⟨"A", "INV-A", 3400.034, none⟩] 4000.04
        = [{ invoices := [⟨"A", "INV-A", 3400.034, none⟩]
             total_amount := 3400.03
             difference := 600.01
             confidence := 85
             reason := "Similar single invoice amount" }]
      ∧ ¬ (|(600.01 : ℚ)| ≤ max ((4000.04 : ℚ) * 0.15) 500) := by
  constructor
  · norm_num [buildPartialMatches, candidateSuggestions, pairsOf, triplesOf, List.filter,
      shouldInclude, tolerance, comboTotal, comboSuggestion, singleSuggestion,
      computeConfidence, round2, round_eq, abs, registerSuggestion, mapGet, mapSet,
      List.insertionSort, List.orderedInsert, suggestionKey, List.foldl]
  · rw [abs_of_pos (by norm_num : (0:ℚ) < 600.01)]
    norm_num

/-- C3 amended: every returned suggestion's invoice list is a size-1-to-3
sublist of the open-invoice input (so distinct entries, in input order), the
raw difference `target − total` lies within `max(target*0.15, 500)`, the
difference field is that raw difference rounded to cents, and hence the
difference field exceeds the tolerance by at most half a cent. -/
theorem buildPartialMatches_within_tolerance
    (invs : List InvoiceSummary) (T : ℚ) (s : PartialMatchSuggestion)
    (h : s ∈ buildPartialMatches invs T) :
    1 ≤ s.invoices.length ∧ s.invoices.length ≤ 3 ∧ s.invoices.Sublist invs
      ∧ |T - comboTotal s.invoices| ≤ max (T * 0.15) 500
      ∧ s.difference = round2 (T - comboTotal s.invoices)
      ∧ |s.difference| ≤ max (T * 0.15) 500 + 1 / 200 := by
  obtain ⟨hsub, h1, h3, htol, hdiff⟩ := candidate_shape (mem_buildPartialMatches_candidates h)
  have htol' : |T - comboTotal s.invoices| ≤ max (T * 0.15) 500 := htol
  refine ⟨h1, h3, hsub, htol', hdiff, ?_⟩
  calc |s.difference| = |round2 (T - comboTotal s.invoices)| := by rw [hdiff]
    _ ≤ |T - comboTotal s.invoices| + 1 / 200 := abs_round2_le _
    _ ≤ max (T * 0.15) 500 + 1 / 200 := by linarith

/-- C3 witness: the amended theorem applied to the single-invoice suggestion
returned for target 100 over one open invoice of 100. -/
theorem buildPartialMatches_within_tolerance_witness :
    1 ≤ (singleSuggestion 100 ⟨"A", "INV-A", 100, none⟩).invoices.length
      ∧ (singleSuggestion 100 ⟨"A", "INV-A", 100, none⟩).invoices.length ≤ 3
      ∧ (singleSuggestion 100 ⟨"A", "INV-A", 100, none⟩).invoices.Sublist
          [⟨"A", "INV-A", 100, none⟩]
      ∧ |(100 : ℚ) - comboTotal (singleSuggestion 100 ⟨"A", "INV-A", 100, none⟩).invoices|
          ≤ max ((100 : ℚ) * 0.15) 500
      ∧ (singleSuggestion 100 ⟨"A", "INV-A", 100, none⟩).difference
          = round2 ((100 : ℚ) - comboTotal (singleSuggestion 100 ⟨"A", "INV-A", 100, none⟩).invoices)
      ∧ |(singleSuggestion 100 ⟨"A", "INV-A", 100, none⟩).difference|
          ≤ max ((100 : ℚ) * 0.15) 500 + 1 / 200 :=
  buildPartialMatches_within_tolerance [⟨"A", "INV-A", 100, none⟩] 100
    (singleSuggestion 100 ⟨"A", "INV-A", 100, none⟩)
    (by norm_num [buildPartialMatches, candidateSuggestions, pairsOf, triplesOf, List.filter,
      shouldInclude, tolerance, comboTotal, singleSuggestion,
      computeConfidence, round2, round_eq, abs, registerSuggestion, mapGet, mapSet,
      List.insertionSort, List.orderedInsert, suggestionKey, List.foldl])

/-- C5: any suggestion returned before another has strictly smaller absolute
difference, or equal absolute difference and at least its confidence; and at
most five suggestions are returned. -/
theorem buildPartialMatches_ranked_and_bounded (invs : List InvoiceSummary) (T : ℚ) :
    List.Pairwise
        (fun a b : PartialMatchSuggestion =>
          |a.difference| < |b.difference|
            ∨ (|a.difference| = |b.difference| ∧ b.confidence ≤ a.confidence))
        (buildPartialMatches invs T)
      ∧ (buildPartialMatches invs T).length ≤ 5 := by
  constructor
  · exact List.Pairwise.sublist (List.take_sublist 5 _)
      (List.sorted_insertionSort suggestionBefore _)
  · unfold buildPartialMatches
    rw [List.length_take]
    exact min_le_left 5 _

theorem find_in_mapped (m : SuggestionMap) (k : String) (v : PartialMatchSuggestion)
    (h : m.any (fun p => p.1 = k)) :
    (m.map (fun p => if p.1 = k then (k, v) else p)).find? (fun p => p.1 = k) = some (k, v) := by
  induction m with
  | nil => simp at h
  | cons p rest ih =>
      by_cases hp : p.1 = k
      · simp [hp, List.find?]
      · simp only [List.any_cons, Bool.or_eq_true, decide_eq_true_eq] at h
        rcases h with h | h
        · exact absurd h hp
        · simp [List.find?, hp, ih h]

theorem mapGet_mapSet_self (m : SuggestionMap) (k : String) (v : PartialMatchSuggestion) :
    mapGet (mapSet m k v) k = some v := by
  unfold mapGet mapSet
  split
  · rw [find_in_mapped m k v (by assumption)]
    rfl
  · rw [List.find?_append]
    have hnone : m.find? (fun p => p.1 = k) = none := by
      rw [List.find?_eq_none]
      intro p hp
      simp only [decide_eq_true_eq]
      intro hpk
      rename_i hany
      exact hany (List.any_eq_true.mpr ⟨p, hp, by simp [hpk]⟩)
    simp [hnone, List.find?]

theorem find_mapped_ne (m : SuggestionMap) (k k' : String) (v : PartialMatchSuggestion)
    (h : k' ≠ k) :
    (m.map (fun p => if p.1 = k then (k, v) else p)).find? (fun p => p.1 = k')
      = m.find? (fun p => p.1 = k') := by
  induction m with
  | nil => simp
  | cons p rest ih =>
      by_cases hp : p.1 = k
      · have h1 : ¬ p.1 = k' := by rw [hp]; exact fun hk => h hk.symm
        have h2 : ¬ (k, v).1 = k' := fun hk => h hk.symm
        simp only [List.map_cons, List.find?_cons, if_pos hp]
        simp [h1, h2, ih]
      · simp only [List.map_cons, List.find?_cons, if_neg hp]
        by_cases hp' : p.1 = k'
        · simp [hp']
        · simp [hp', ih]

theorem mapGet_mapSet_ne (m : SuggestionMap) (k k' : String) (v : PartialMatchSuggestion)
    (h : k' ≠ k) : mapGet (mapSet m k v) k' = mapGet m k' := by
  unfold mapGet mapSet
  split
  · rw [find_mapped_ne m k k' v h]
  · rw [List.find?_append]
    have hne : ¬ k = k' := fun hk => h hk.symm
    have : List.find? (fun p => p.1 = k') [(k, v)] = none := by
      simp [List.find?_cons, hne]
    rw [this]
    simp

theorem registerSuggestion_get_ne (m : SuggestionMap) (c : PartialMatchSuggestion) (k : String)
    (h : suggestionKey c ≠ k) :
    mapGet (registerSuggestion m c) k = mapGet m k := by
  unfold registerSuggestion
  split
  · exact mapGet_mapSet_ne m _ k c (Ne.symm h)
  · split
    · exact mapGet_mapSet_ne m _ k c (Ne.symm h)
    · rfl

theorem keys_mapSet (m : SuggestionMap) (k : String) (v : PartialMatchSuggestion) :
    (mapSet m k v).map Prod.fst
      = if m.any (fun p => p.1 = k) then m.map Prod.fst else m.map Prod.fst ++ [k] := by
  unfold mapSet
  split
  · rw [List.map_map]
    apply List.map_congr_left
    intro p _
    by_cases hp : p.1 = k
    · simp [Function.comp, hp]
    · simp [Function.comp, hp]
  · simp

theorem mapSet_keyinv (m : SuggestionMap) (s : PartialMatchSuggestion)
    (h : ∀ p ∈ m, suggestionKey p.2 = p.1) :
    ∀ p ∈ mapSet m (suggestionKey s) s, suggestionKey p.2 = p.1 := by
  intro p hp
  unfold mapSet at hp
  split at hp
  · obtain ⟨q, hq, hqp⟩ := List.mem_map.mp hp
    by_cases hqk : q.1 = suggestionKey s
    · simp only [if_pos hqk] at hqp
      rw [← hqp]
    · simp only [if_neg hqk] at hqp
      exact hqp ▸ h q hq
  · rcases List.mem_append.mp hp with hp | hp
    · exact h p hp
    · rw [List.mem_singleton.mp hp]

theorem registerSuggestion_keyinv (m : SuggestionMap) (s : PartialMatchSuggestion)
    (h : ∀ p ∈ m, suggestionKey p.2 = p.1) :
    ∀ p ∈ registerSuggestion m s, suggestionKey p.2 = p.1 := by
  unfold registerSuggestion
  split
  · exact mapSet_keyinv m s h
  · split
    · exact mapSet_keyinv m s h
    · exact h

theorem mapSet_nodupkeys (m : SuggestionMap) (k : String) (v : PartialMatchSuggestion)
    (h : (m.map Prod.fst).Nodup) : ((mapSet m k v).map Prod.fst).Nodup := by
  rw [keys_mapSet]
  split
  · exact h
  · rename_i hany
    rw [List.nodup_append]
    refine ⟨h, List.nodup_singleton k, ?_⟩
    intro a ha hb
    rw [List.mem_singleton] at hb
    subst hb
    obtain ⟨p, hp, hpk⟩ := List.mem_map.mp ha
    exact hany (List.any_eq_true.mpr ⟨p, hp, by simp [hpk]⟩)

theorem registerSuggestion_nodupkeys (m : SuggestionMap) (s : PartialMatchSuggestion)
    (h : (m.map Prod.fst).Nodup) : ((registerSuggestion m s).map Prod.fst).Nodup := by
  unfold registerSuggestion
  split
  · exact mapSet_nodupkeys m _ s h
  · split
    · exact mapSet_nodupkeys m _ s h
    · exact h

theorem foldl_register_keyinv (cs : List PartialMatchSuggestion) (m : SuggestionMap)
    (h : ∀ p ∈ m, suggestionKey p.2 = p.1) :
    ∀ p ∈ cs.foldl registerSuggestion m, suggestionKey p.2 = p.1 := by
  induction cs generalizing m with
  | nil => exact h
  | cons c rest ih => exact ih (registerSuggestion m c) (registerSuggestion_keyinv m c h)

theorem foldl_register_nodupkeys (cs : List PartialMatchSuggestion) (m : SuggestionMap)
    (h : (m.map Prod.fst).Nodup) :
    ((cs.foldl registerSuggestion m).map Prod.fst).Nodup := by
  induction cs generalizing m with
  | nil => exact h
  | cons c rest ih => exact ih (registerSuggestion m c) (registerSuggestion_nodupkeys m c h)

theorem values_get (m : SuggestionMap)
    (hkey : ∀ p ∈ m, suggestionKey p.2 = p.1)
    (hnd : (m.map Prod.fst).Nodup)
    {s : PartialMatchSuggestion} (hs : s ∈ m.map Prod.snd) :
    mapGet m (suggestionKey s) = some s := by
  induction m with
  | nil => simp at hs
  | cons p rest ih =>
      rw [List.map_cons, List.mem_cons] at hs
      rcases hs with hs | hs
      · subst hs
        unfold mapGet
        rw [hkey p (List.mem_cons_self p rest)]
        simp [List.find?_cons]
      · have hkr : ∀ q ∈ rest, suggestionKey q.2 = q.1 :=
          fun q hq => hkey q (List.mem_cons_of_mem p hq)
        have hndr : (rest.map Prod.fst).Nodup := (List.nodup_cons.mp hnd).2
        have hrec := ih hkr hndr hs
        unfold mapGet at hrec ⊢
        rw [List.find?_cons]
        have hne : ¬ p.1 = suggestionKey s := by
          intro hpk
          obtain ⟨q, hq, hqs⟩ := List.mem_map.mp hs
          have : suggestionKey s ∈ rest.map Prod.fst := by
            rw [← hqs, hkr q hq]
            exact List.mem_map_of_mem Prod.fst hq
          rw [← hpk] at this
          exact (List.nodup_cons.mp hnd).1 this
        rw [decide_eq_false hne]
        exact hrec

theorem registerSuggestion_eq_of_get_none (m : SuggestionMap) (c : PartialMatchSuggestion)
    (hg : mapGet m (suggestionKey c) = none) :
    registerSuggestion m c = mapSet m (suggestionKey c) c := by
  unfold registerSuggestion
  rw [hg]

theorem registerSuggestion_eq_of_get_some (m : SuggestionMap) (c ex : PartialMatchSuggestion)
    (hg : mapGet m (suggestionKey c) = some ex) :
    registerSuggestion m c
      = if ex.confidence < c.confidence then mapSet m (suggestionKey c) c else m := by
  unfold registerSuggestion
  rw [hg]

theorem registerSuggestion_get_at_key (m : SuggestionMap) (c : PartialMatchSuggestion) :
    ∃ v, mapGet (registerSuggestion m c) (suggestionKey c) = some v
      ∧ c.confidence ≤ v.confidence := by
  cases hg : mapGet m (suggestionKey c) with
  | none =>
      rw [registerSuggestion_eq_of_get_none m c hg]
      exact ⟨c, mapGet_mapSet_self m _ c, le_refl _⟩
  | some ex =>
      rw [registerSuggestion_eq_of_get_some m c ex hg]
      by_cases hlt : ex.confidence < c.confidence
      · rw [if_pos hlt]
        exact ⟨c, mapGet_mapSet_self m _ c, le_refl _⟩
      · rw [if_neg hlt]
        exact ⟨ex, hg, le_of_not_lt hlt⟩

theorem registerSuggestion_get_grows (m : SuggestionMap) (c : PartialMatchSuggestion)
    (k : String) {w : PartialMatchSuggestion} (hg : mapGet m k = some w) :
    ∃ v, mapGet (registerSuggestion m c) k = some v ∧ w.confidence ≤ v.confidence := by
  by_cases hk : suggestionKey c = k
  · subst hk
    rw [registerSuggestion_eq_of_get_some m c w hg]
    by_cases hlt : w.confidence < c.confidence
    · rw [if_pos hlt]
      exact ⟨c, mapGet_mapSet_self m _ c, le_of_lt hlt⟩
    · rw [if_neg hlt]
      exact ⟨w, hg, le_refl _⟩
  · rw [registerSuggestion_get_ne m c k hk]
    exact ⟨w, hg, le_refl _⟩

theorem foldl_register_get_mono (cs : List PartialMatchSuggestion) (m : SuggestionMap)
    (k : String) {w : PartialMatchSuggestion} (hg : mapGet m k = some w) :
    ∃ v, mapGet (cs.foldl registerSuggestion m) k = some v ∧ w.confidence ≤ v.confidence := by
  induction cs generalizing m w with
  | nil => exact ⟨w, hg, le_refl _⟩
  | cons c rest ih =>
      obtain ⟨v1, hv1, hle1⟩ := registerSuggestion_get_grows m c k hg
      obtain ⟨v2, hv2, hle2⟩ := ih (registerSuggestion m c) hv1
      exact ⟨v2, hv2, hle1.trans hle2⟩

theorem foldl_register_dominates (cs : List PartialMatchSuggestion) (m : SuggestionMap)
    (k : String) {v : PartialMatchSuggestion}
    (hget : mapGet (cs.foldl registerSuggestion m) k = some v) :
    ∀ c ∈ cs, suggestionKey c = k → c.confidence ≤ v.confidence := by
  induction cs generalizing m with
  | nil => intro c hc; simp at hc
  | cons c1 rest ih =>
      intro c hc hk
      rcases List.mem_cons.mp hc with hc | hc
      · subst hc
        obtain ⟨w, hw, hcw⟩ := registerSuggestion_get_at_key m c
        rw [hk] at hw
        obtain ⟨v2, hv2, hwv2⟩ := foldl_register_get_mono rest (registerSuggestion m c) k hw
        rw [List.foldl_cons] at hget
        rw [hget] at hv2
        cases hv2
        exact hcw.trans hwv2
      · exact ih (registerSuggestion m c1) hget c hc hk

theorem mem_result_values {invs : List InvoiceSummary} {T : ℚ} {s : PartialMatchSuggestion}
    (h : s ∈ buildPartialMatches invs T) :
    s ∈ ((candidateSuggestions invs T).foldl registerSuggestion []).map Prod.snd := by
  unfold buildPartialMatches at h
  exact ((List.perm_insertionSort suggestionBefore _).mem_iff).mp ((List.take_sublist 5 _).mem h)

theorem suggestionKey_congr {a b : PartialMatchSuggestion}
    (hperm : (a.invoices.map (fun i => i.invoice_id)).Perm (b.invoices.map (fun i => i.invoice_id)))
    (hround : round (a.total_amount * 100) = round (b.total_amount * 100)) :
    suggestionKey a = suggestionKey b := by
  unfold suggestionKey
  have hsort :
      List.insertionSort (fun x y : String => x ≤ y) (a.invoices.map (fun i => i.invoice_id))
        = List.insertionSort (fun x y : String => x ≤ y)
            (b.invoices.map (fun i => i.invoice_id)) := by
    exact @List.eq_of_perm_of_sorted String (fun x y => x ≤ y) inferInstance _ _
      ((List.perm_insertionSort _ _).trans (hperm.trans (List.perm_insertionSort _ _).symm))
      (List.sorted_insertionSort _ _) (List.sorted_insertionSort _ _)
  rw [hsort, hround]

/-- C6: no two returned suggestions carry the same invoice identifiers (as a
multiset, hence the same set, ids being unique) together with the same total
rounded to cents; and every returned suggestion's confidence is maximal
among the generated candidates sharing its identifiers and rounded total. -/
theorem buildPartialMatches_dedup (invs : List InvoiceSummary) (T : ℚ) :
    List.Pairwise
        (fun a b : PartialMatchSuggestion =>
          ¬ ((a.invoices.map (fun i => i.invoice_id)).Perm
                (b.invoices.map (fun i => i.invoice_id))
              ∧ round (a.total_amount * 100) = round (b.total_amount * 100)))
        (buildPartialMatches invs T)
      ∧ ∀ s ∈ buildPartialMatches invs T, ∀ c ∈ candidateSuggestions invs T,
          (c.invoices.map (fun i => i.invoice_id)).Perm
              (s.invoices.map (fun i => i.invoice_id)) →
          round (c.total_amount * 100) = round (s.total_amount * 100) →
          c.confidence ≤ s.confidence := by
  have hkey : ∀ p ∈ (candidateSuggestions invs T).foldl registerSuggestion [],
      suggestionKey p.2 = p.1 :=
    foldl_register_keyinv _ [] (by simp)
  have hnd : (((candidateSuggestions invs T).foldl registerSuggestion []).map Prod.fst).Nodup :=
    foldl_register_nodupkeys _ [] (by simp)
  constructor
  · have hpe : List.Pairwise (fun p q : String × PartialMatchSuggestion => p.1 ≠ q.1)
        ((candidateSuggestions invs T).foldl registerSuggestion []) :=
      (List.pairwise_map).mp hnd
    have hpv : List.Pairwise
        (fun a b : PartialMatchSuggestion => suggestionKey a ≠ suggestionKey b)
        (((candidateSuggestions invs T).foldl registerSuggestion []).map Prod.snd) := by
      rw [List.pairwise_map]
      exact hpe.imp_of_mem (fun hp hq h => by rw [hkey _ hp, hkey _ hq]; exact h)
    have hsorted : List.Pairwise
        (fun a b : PartialMatchSuggestion => suggestionKey a ≠ suggestionKey b)
        (buildPartialMatches invs T) := by
      unfold buildPartialMatches
      exact List.Pairwise.sublist (List.take_sublist 5 _)
        (hpv.perm (List.perm_insertionSort suggestionBefore _).symm (fun h => h.symm))
    exact hsorted.imp (fun h hc => h (suggestionKey_congr hc.1 hc.2))
  · intro s hs c hc hperm hround
    have hv := mem_result_values hs
    have hget := values_get _ hkey hnd hv
    exact foldl_register_dominates (candidateSuggestions invs T) [] (suggestionKey s) hget
      c hc (suggestionKey_congr hperm hround)

theorem foldl_register_stable (cs : List PartialMatchSuggestion) (m : SuggestionMap)
    (k : String) {w : PartialMatchSuggestion} (hg : mapGet m k = some w)
    (hconf : ∀ c ∈ cs, suggestionKey c = k → ¬ w.confidence < c.confidence) :
    mapGet (cs.foldl registerSuggestion m) k = some w := by
  induction cs generalizing m with
  | nil => exact hg
  | cons c rest ih =>
      rw [List.foldl_cons]
      by_cases hk : suggestionKey c = k
      · have heq : registerSuggestion m c = m := by
          rw [registerSuggestion_eq_of_get_some m c w (hk ▸ hg)]
          exact if_neg (hconf c (List.mem_cons_self c rest) hk)
        rw [heq]
        exact ih m hg (fun c' hc' => hconf c' (List.mem_cons_of_mem c hc'))
      · exact ih (registerSuggestion m c)
          ((registerSuggestion_get_ne m c k hk).trans hg)
          (fun c' hc' => hconf c' (List.mem_cons_of_mem c hc'))

theorem foldl_register_first_of_const (cs : List PartialMatchSuggestion) (m : SuggestionMap)
    (k : String) (hg : mapGet m k = none)
    (hconf : ∀ c ∈ cs, suggestionKey c = k →
      ∀ c' ∈ cs, suggestionKey c' = k → c.confidence = c'.confidence) :
    mapGet (cs.foldl registerSuggestion m) k
      = cs.find? (fun c => suggestionKey c = k) := by
  induction cs generalizing m with
  | nil => exact hg
  | cons c rest ih =>
      rw [List.foldl_cons, List.find?_cons]
      by_cases hk : suggestionKey c = k
      · rw [decide_eq_true hk]
        have heq := registerSuggestion_eq_of_get_none m c (hk ▸ hg)
        rw [heq]
        apply foldl_register_stable rest _ k (hk ▸ mapGet_mapSet_self m (suggestionKey c) c)
        intro c' hc' hk'
        rw [hconf c (List.mem_cons_self c rest) hk c'
          (List.mem_cons_of_mem c hc') hk']
        exact lt_irrefl _
      · rw [decide_eq_false hk]
        exact ih (registerSuggestion m c)
          ((registerSuggestion_get_ne m c k hk).trans hg)
          (fun a ha hka a' ha' hka' =>
            hconf a (List.mem_cons_of_mem c ha) hka a' (List.mem_cons_of_mem c ha') hka')

/-- C10: over the candidate list of `buildPartialMatches` (all singles, then
all pairs, then all triples, each index-ascending), when every candidate
carrying a given deduplication key has the same confidence, the map entry
for that key after the registration fold is the first such candidate in
generation order: the strict inequality in `registerSuggestion` never
replaces on a tie. -/
theorem register_fold_tie_keeps_earliest
    (invs : List InvoiceSummary) (T : ℚ) (k : String)
    (hconf : ∀ c ∈ candidateSuggestions invs T, suggestionKey c = k →
      ∀ c' ∈ candidateSuggestions invs T, suggestionKey c' = k →
        c.confidence = c'.confidence) :
    mapGet ((candidateSuggestions invs T).foldl registerSuggestion []) k
      = (candidateSuggestions invs T).find? (fun c => suggestionKey c = k) :=
  foldl_register_first_of_const (candidateSuggestions invs T) [] k rfl hconf

/-- C6 witness at a concrete input: one open invoice of 100 against target
100. -/
theorem buildPartialMatches_dedup_witness :
    List.Pairwise
        (fun a b : PartialMatchSuggestion =>
          ¬ ((a.invoices.map (fun i => i.invoice_id)).Perm
                (b.invoices.map (fun i => i.invoice_id))
              ∧ round (a.total_amount * 100) = round (b.total_amount * 100)))
        (buildPartialMatches [⟨"X", "N", 100, none⟩] 100)
      ∧ (singleSuggestion 100 ⟨"X", "N", 100, none⟩).confidence
          ≤ (singleSuggestion 100 ⟨"X", "N", 100, none⟩).confidence := by
  refine ⟨(buildPartialMatches_dedup [⟨"X", "N", 100, none⟩] 100).1, ?_⟩
  apply (buildPartialMatches_dedup [⟨"X", "N", 100, none⟩] 100).2
  · norm_num [buildPartialMatches, candidateSuggestions, pairsOf, triplesOf, List.filter,
      shouldInclude, tolerance, comboTotal, singleSuggestion,
      computeConfidence, round2, round_eq, abs, registerSuggestion, mapGet, mapSet,
      List.insertionSort, List.orderedInsert, suggestionKey, List.foldl]
  · norm_num [candidateSuggestions, pairsOf, triplesOf, List.filter,
      shouldInclude, tolerance, comboTotal, singleSuggestion,
      computeConfidence, round2, round_eq, abs]
  · exact List.Perm.refl _
  · rfl

/-- C10 witness: two open invoices with the same id `A` and amount 760
against target 1000 generate two single-invoice candidates with the same
key `A|76000` and the same confidence; the one over the first row (number
`N1`) is the one retained. -/
theorem register_fold_tie_keeps_earliest_witness :
    mapGet ((candidateSuggestions [⟨"A", "N1", 760, none⟩, ⟨"A", "N2", 760, none⟩] 1000).foldl
        registerSuggestion []) "A|76000"
      = some (singleSuggestion 1000 ⟨"A", "N1", 760, none⟩) := by
  have hcand : candidateSuggestions [⟨"A", "N1", 760, none⟩, ⟨"A", "N2", 760, none⟩] 1000
      = [singleSuggestion 1000 ⟨"A", "N1", 760, none⟩,
         singleSuggestion 1000 ⟨"A", "N2", 760, none⟩] := by
    norm_num [candidateSuggestions, pairsOf, triplesOf, List.filter,
      shouldInclude, tolerance, comboTotal, singleSuggestion,
      computeConfidence, round2, round_eq, abs]
  have hconf : ∀ c ∈ candidateSuggestions [⟨"A", "N1", 760, none⟩, ⟨"A", "N2", 760, none⟩] 1000,
      suggestionKey c = "A|76000" →
      ∀ c' ∈ candidateSuggestions [⟨"A", "N1", 760, none⟩, ⟨"A", "N2", 760, none⟩] 1000,
        suggestionKey c' = "A|76000" → c.confidence = c'.confidence := by
    rw [hcand]
    intro c hc _ c' hc' _
    rcases List.mem_cons.mp hc with h | h
    · rcases List.mem_cons.mp hc' with h' | h'
      · rw [h, h']
      · rw [h, List.mem_singleton.mp h']
        simp [singleSuggestion]
    · rcases List.mem_cons.mp hc' with h' | h'
      · rw [List.mem_singleton.mp h, h']
        simp [singleSuggestion]
      · rw [List.mem_singleton.mp h, List.mem_singleton.mp h']
  rw [register_fold_tie_keeps_earliest _ 1000 "A|76000" hconf, hcand]
  have hk1 : suggestionKey (singleSuggestion 1000 ⟨"A", "N1", 760, none⟩) = "A|76000" := by
    have hr : round ((singleSuggestion 1000 ⟨"A", "N1", 760, none⟩).total_amount * 100)
        = (76000 : ℤ) := by
      norm_num [singleSuggestion, round2, round_eq]
    unfold suggestionKey
    rw [hr]
    norm_num [singleSuggestion, List.insertionSort, List.orderedInsert]
    decide
  rw [List.find?_cons, decide_eq_true hk1]

/-- C1: if some open invoice is within the 0.01 epsilon of the payment
amount, the handler (with both updates succeeding) returns `matched`
referencing exactly the first such invoice in input order, with the
matched-invoice reference set and an empty partial-match list. -/
theorem matchPayment_exact_first
    (s : TenantState) (pre : List InvoiceSummary) (inv : InvoiceSummary)
    (post : List InvoiceSummary)
    (hsplit : openInvoicesOf s = pre ++ inv :: post)
    (hpre : ∀ x ∈ pre, ¬ |x.amount - s.payment.amount_received| < 0.01)
    (hinv : |inv.amount - s.payment.amount_received| < 0.01) :
    (matchPayment s ⟨false, false⟩).1
      = .ok "matched"
          ("Payment successfully matched to invoice " ++ inv.invoice_number ++ ".")
          (some inv.invoice_id) [inv] []
      ∧ (matchPayment s ⟨false, false⟩).2.payment.status = "matched"
      ∧ (matchPayment s ⟨false, false⟩).2.payment.matched_invoice_id = some inv.invoice_id := by
  have hfind : (openInvoicesOf s).find?
      (fun invoice => |invoice.amount - s.payment.amount_received| < 0.01) = some inv := by
    rw [hsplit, List.find?_append]
    have hnone : pre.find?
        (fun invoice => |invoice.amount - s.payment.amount_received| < 0.01) = none := by
      rw [List.find?_eq_none]
      intro x hx
      simpa using hpre x hx
    rw [hnone, List.find?_cons, decide_eq_true hinv]
    rfl
  unfold matchPayment
  rw [hfind]
  exact ⟨rfl, rfl, rfl⟩

/-- C1 witness: one open invoice of 100 against a payment of 100. -/
theorem matchPayment_exact_first_witness :
    (matchPayment ⟨[⟨"A", "INV-A", 100, "open", none⟩], ⟨"p1", 100, "unmatched", none⟩⟩
        ⟨false, false⟩).1
      = .ok "matched" ("Payment successfully matched to invoice " ++ "INV-A" ++ ".")
          (some "A") [⟨"A", "INV-A", 100, none⟩] []
      ∧ (matchPayment ⟨[⟨"A", "INV-A", 100, "open", none⟩], ⟨"p1", 100, "unmatched", none⟩⟩
          ⟨false, false⟩).2.payment.status = "matched"
      ∧ (matchPayment ⟨[⟨"A", "INV-A", 100, "open", none⟩], ⟨"p1", 100, "unmatched", none⟩⟩
          ⟨false, false⟩).2.payment.matched_invoice_id = some "A" :=
  matchPayment_exact_first
    ⟨[⟨"A", "INV-A", 100, "open", none⟩], ⟨"p1", 100, "unmatched", none⟩⟩
    [] ⟨"A", "INV-A", 100, none⟩ []
    (by norm_num [openInvoicesOf, toSummary, List.filter])
    (by intro x hx; simp at hx)
    (by norm_num)

/-- C4: with an exact match present and the payment update failing
transiently, the handler marks the invoice paid, leaves the payment
untouched, and returns the 500 error: the dual update is not atomic and
there is no fallback to `needs_review`. -/
theorem matchPayment_partial_failure_inconsistent :
    (matchPayment ⟨[⟨"A", "INV-A", 100, "open", none⟩], ⟨"p1", 100, "unmatched", none⟩⟩
        ⟨false, true⟩).1 = .serverError
      ∧ (matchPayment ⟨[⟨"A", "INV-A", 100, "open", none⟩], ⟨"p1", 100, "unmatched", none⟩⟩
          ⟨false, true⟩).2.invoices = [⟨"A", "INV-A", 100, "paid", none⟩]
      ∧ (matchPayment ⟨[⟨"A", "INV-A", 100, "open", none⟩], ⟨"p1", 100, "unmatched", none⟩⟩
          ⟨false, true⟩).2.payment = ⟨"p1", 100, "unmatched", none⟩ := by
  have hfind : (openInvoicesOf
      ⟨[⟨"A", "INV-A", 100, "open", none⟩], ⟨"p1", 100, "unmatched", none⟩⟩).find?
      (fun invoice => |invoice.amount - (100 : ℚ)| < 0.01)
      = some ⟨"A", "INV-A", 100, none⟩ := by
    norm_num [openInvoicesOf, toSummary, List.filter, List.find?]
  unfold matchPayment
  rw [hfind]
  refine ⟨rfl, ?_, rfl⟩
  norm_num [markInvoicePaid, List.map]

/-- C8 counterexample: re-invoking the handler on an already-matched payment
(matched invoice paid and out of the open set, no other invoice within the
epsilon) resets the payment to `needs_review` and clears its matched-invoice
reference instead of leaving it `matched`. -/
theorem matchPayment_rematch_resets_payment :
    (matchPayment ⟨[⟨"A", "INV-A", 100, "paid", none⟩, ⟨"B", "INV-B", 50, "open", none⟩],
        ⟨"p1", 100, "matched", some "A"⟩⟩ ⟨false, false⟩).2.payment
      = ⟨"p1", 100, "needs_review", none⟩ := by
  have hfind : (openInvoicesOf
      ⟨[⟨"A", "INV-A", 100, "paid", none⟩, ⟨"B", "INV-B", 50, "open", none⟩],
        ⟨"p1", 100, "matched", some "A"⟩⟩).find?
      (fun invoice => |invoice.amount - (100 : ℚ)| < 0.01) = none := by
    norm_num [openInvoicesOf, toSummary, List.filter, List.find?]
  unfold matchPayment
  rw [hfind]
  rfl

/-- C8 amended: re-invoking the handler on an already-matched payment whose
matched invoice is paid (hence out of the open set), when no open invoice is
within the epsilon, leaves the invoice table unchanged and emits no match,
but resets the payment to `needs_review` with its matched-invoice reference
cleared. -/
theorem matchPayment_rematch (s : TenantState) (aid : String)
    (hpay : s.payment.status = "matched")
    (hmid : s.payment.matched_invoice_id = some aid)
    (hnone : ∀ inv ∈ openInvoicesOf s, ¬ |inv.amount - s.payment.amount_received| < 0.01) :
    (matchPayment s ⟨false, false⟩).2.invoices = s.invoices
      ∧ (matchPayment s ⟨false, false⟩).1
          = .ok "needs_review" "No exact invoice match found. Manual review required." none []
              (buildPartialMatches
                ((openInvoicesOf s).filter
                  (fun invoice => some invoice.invoice_id ≠ (none : Option String)))
                s.payment.amount_received)
      ∧ (matchPayment s ⟨false, false⟩).2.payment.status = "needs_review"
      ∧ (matchPayment s ⟨false, false⟩).2.payment.matched_invoice_id = none := by
  have hfind : (openInvoicesOf s).find?
      (fun invoice => |invoice.amount - s.payment.amount_received| < 0.01) = none := by
    rw [List.find?_eq_none]
    intro x hx
    simpa using hnone x hx
  unfold matchPayment
  rw [hfind]
  exact ⟨rfl, rfl, rfl, rfl⟩

/-- C8 amended witness: payment of 100 matched to the paid invoice `A`, one
other open invoice of 50. -/
theorem matchPayment_rematch_witness :
    (matchPayment ⟨[⟨"A", "INV-A", 100, "paid", none⟩, ⟨"B", "INV-B", 50, "open", none⟩],
          ⟨"p1", 100, "matched", some "A"⟩⟩ ⟨false, false⟩).2.invoices
        = [⟨"A", "INV-A", 100, "paid", none⟩, ⟨"B", "INV-B", 50, "open", none⟩]
      ∧ (matchPayment ⟨[⟨"A", "INV-A", 100, "paid", none⟩, ⟨"B", "INV-B", 50, "open", none⟩],
            ⟨"p1", 100, "matched", some "A"⟩⟩ ⟨false, false⟩).1
          = .ok "needs_review" "No exact invoice match found. Manual review required." none []
              (buildPartialMatches
                ((openInvoicesOf
                    ⟨[⟨"A", "INV-A", 100, "paid", none⟩, ⟨"B", "INV-B", 50, "open", none⟩],
                      ⟨"p1", 100, "matched", some "A"⟩⟩).filter
                  (fun invoice => some invoice.invoice_id ≠ (none : Option String)))
                (100 : ℚ))
      ∧ (matchPayment ⟨[⟨"A", "INV-A", 100, "paid", none⟩, ⟨"B", "INV-B", 50, "open", none⟩],
            ⟨"p1", 100, "matched", some "A"⟩⟩ ⟨false, false⟩).2.payment.status = "needs_review"
      ∧ (matchPayment ⟨[⟨"A", "INV-A", 100, "paid", none⟩, ⟨"B", "INV-B", 50, "open", none⟩],
            ⟨"p1", 100, "matched", some "A"⟩⟩ ⟨false, false⟩).2.payment.matched_invoice_id
          = none :=
  matchPayment_rematch
    ⟨[⟨"A", "INV-A", 100, "paid", none⟩, ⟨"B", "INV-B", 50, "open", none⟩],
      ⟨"p1", 100, "matched", some "A"⟩⟩ "A" rfl rfl
    (by
      intro inv hinv
      have hop : openInvoicesOf
          ⟨[⟨"A", "INV-A", 100, "paid", none⟩, ⟨"B", "INV-B", 50, "open", none⟩],
            ⟨"p1", 100, "matched", some "A"⟩⟩ = [⟨"B", "INV-B", 50, none⟩] := rfl
      rw [hop, List.mem_singleton] at hinv
      rw [hinv]
      norm_num)

theorem round2_bounds {x : ℚ} (h0 : 0 ≤ x) (h1 : x ≤ 1) :
    0 ≤ round2 x ∧ round2 x ≤ 1 := by
  unfold round2
  constructor
  · apply div_nonneg _ (by norm_num)
    have : (0 : ℤ) ≤ round (x * 100) := by
      rw [round_eq]
      apply Int.le_floor.mpr
      push_cast
      nlinarith
    exact_mod_cast this
  · rw [div_le_one (by norm_num)]
    have : round (x * 100) ≤ 100 := by
      rw [round_eq]
      have : x * 100 + 1 / 2 ≤ 201 / 2 := by nlinarith
      calc ⌊x * 100 + 1 / 2⌋ ≤ ⌊(201 / 2 : ℚ)⌋ := Int.floor_le_floor this
        _ = 100 := by norm_num [Int.floor_eq_iff]
    exact_mod_cast this

/-- C7: the confidence of a candidate with difference `d` and `k` invoices
against target `T` is `round2(min((1 − min(|d|/max(T,1), 1)) + (0.1 if k>1
else 0), 1)) × 100`, and always lies between 0 and 100. -/
theorem computeConfidence_formula_and_range (T d : ℚ) (k : ℕ) :
    computeConfidence T d k
        = round2 (min ((1 - min (|d| / max T 1) 1) + (if 1 < k then 0.1 else 0)) 1) * 100
      ∧ 0 ≤ computeConfidence T d k ∧ computeConfidence T d k ≤ 100 := by
  refine ⟨rfl, ?_, ?_⟩ <;>
  · unfold computeConfidence
    have hrel0 : 0 ≤ min (|d| / max T 1) 1 :=
      le_min (div_nonneg (abs_nonneg d) (le_trans zero_le_one (le_max_right T 1))) zero_le_one
    have hrel1 : min (|d| / max T 1) 1 ≤ 1 := min_le_right _ _
    have hb : (0 : ℚ) ≤ (if 1 < k then (0.1 : ℚ) else 0) := by positivity
    have h0 : 0 ≤ min ((1 - min (|d| / max T 1) 1) + (if 1 < k then (0.1 : ℚ) else 0)) 1 :=
      le_min (by nlinarith) zero_le_one
    have h1 : min ((1 - min (|d| / max T 1) 1) + (if 1 < k then (0.1 : ℚ) else 0)) 1 ≤ 1 :=
      min_le_right _ _
    have := round2_bounds h0 h1
    nlinarith [this.1, this.2]
